import Mathlib

/-!
A shallow embedding of the sandboxed code-execution service in `src/main.py`
(repository `Pullerz/basic-code-exec`), together with theorems settling the
frozen claims about its specification.

Conventions:
* Python strings are Lean `String`s; where character-level reasoning is
  needed we work on `String.data : List Char`.
* Python exceptions are modelled with `Except`; the `try/except` ladders of
  the endpoints are modelled explicitly, including which handler catches
  which exception class.
* Behaviour of the Python standard library (`ast.literal_eval`, `exec`,
  `eval`, the filesystem) is modelled by oracle parameters or by faithful
  Lean implementations (`os.path.normpath`, `os.path.join`, `str.replace`,
  the `re` pattern of `_parse_kw`), each documented at its definition.
-/

namespace BasicCodeExec

/-- Python values as far as this service observes them: the literal types
produced by `ast.literal_eval` and returned by submitted entry points.
Equality on this type is structural (deep), matching Python `==` on these
shapes. -/
inductive Val where
  | none : Val
  | bool (b : Bool) : Val
  | int (n : Int) : Val
  | str (s : String) : Val
  | list (vs : List Val) : Val

mutual

/-- Structural (deep) equality on values, matching Python `==` on literal
shapes: containers are compared element by element, not by identity. -/
def Val.beq : Val → Val → Bool
  | .none, .none => true
  | .bool a, .bool b => a == b
  | .int a, .int b => a == b
  | .str a, .str b => a == b
  | .list a, .list b => Val.beqList a b
  | _, _ => false

def Val.beqList : List Val → List Val → Bool
  | [], [] => true
  | a :: as, b :: bs => Val.beq a b && Val.beqList as bs
  | _, _ => false

end

instance : BEq Val := ⟨Val.beq⟩

/-- A Python exception as observed by the worker's handlers: class name,
message and formatted traceback. -/
structure PyErr where
  name : String
  msg : String
  trace : String
deriving DecidableEq

/-- The string built by the worker's handler:
`f"{type(e).__name__}: {e}\n{traceback.format_exc()}"`. -/
def PyErr.format (e : PyErr) : String :=
  e.name ++ ": " ++ e.msg ++ "\n" ++ e.trace

/-! ### Character classes of the `re` module (ASCII fragment)

`_parse_kw` (src/main.py:147-156) uses the pattern
`(\w+)\s*=\s*(.+?)(?=,\s*\w+\s*=|$)`. We embed the pattern's semantics on
ASCII text: `\w` is alphanumeric or underscore, `\s` is Python whitespace,
`.` is any character except newline. -/

def isWordChar (c : Char) : Bool := c.isAlphanum || c = '_'

def isSpaceChar (c : Char) : Bool :=
  c = ' ' || c = '\t' || c = '\n' || c = '\r' || c = '\x0b' || c = '\x0c'

/-- The `$` lookahead of the pattern (no `re.MULTILINE`): matches at the end
of the string, or just before a newline that is the last character. -/
def lookEnd : List Char → Bool
  | [] => true
  | ['\n'] => true
  | _ => false

/-- The `(?=,\s*\w+\s*=)` lookahead: a comma, optional whitespace, at least
one word character, optional whitespace, then `=`.  The character classes
are pairwise disjoint, so greedy matching is deterministic. -/
def lookKw (l : List Char) : Bool :=
  match l with
  | ',' :: rest =>
      let afterSp := rest.dropWhile isSpaceChar
      let w := afterSp.takeWhile isWordChar
      let afterW := (afterSp.dropWhile isWordChar).dropWhile isSpaceChar
      decide (w ≠ []) && (match afterW with
        | '=' :: _ => true
        | _ => false)
  | _ => false

/-- Lazy `(.+?)` up to the first position (after at least one character)
where either lookahead matches; `.` cannot match a newline.  Returns the
captured value and the rest of the string. -/
def findValue : List Char → Option (List Char × List Char)
  | [] => Option.none
  | c :: rest =>
      if c = '\n' then Option.none
      else if lookEnd rest || lookKw rest then some ([c], rest)
      else match findValue rest with
        | some (v, r) => some (c :: v, r)
        | Option.none => Option.none

/-- Backtracking of the greedy `\s*` before the value: the engine first
tries the value starting after the maximal whitespace run, then gives back
one whitespace character at a time (rightmost first). -/
def findValueBack : List Char → List Char → Option (List Char × List Char)
  | spacesRev, body =>
      match findValue body with
      | some r => some r
      | Option.none =>
          match spacesRev with
          | [] => Option.none
          | s :: srest => findValueBack srest (s :: body)

/-- One attempted match of the pattern at the head of `l`: greedy `\w+`,
greedy `\s*`, a literal `=`, then the (backtrackable) `\s*` and the lazy
value.  Returns (name, value, rest after the match). -/
def matchKwAt (l : List Char) : Option (List Char × List Char × List Char) :=
  let w := l.takeWhile isWordChar
  if w = [] then Option.none
  else
    let afterW := l.dropWhile isWordChar
    match afterW.dropWhile isSpaceChar with
    | '=' :: afterEq =>
        let spaces := afterEq.takeWhile isSpaceChar
        let body := afterEq.dropWhile isSpaceChar
        match findValueBack spaces.reverse body with
        | some (v, rest) => some (w, v, rest)
        | Option.none => Option.none
    | _ => Option.none

/-- Embeds `re.finditer` over the pattern: scan left to right, resuming after each
match; a failed attempt advances one character.  Every successful match
consumes at least one character, so `l.length` steps of fuel are enough. -/
def finditerKwAux : Nat → List Char → List (List Char × List Char)
  | 0, _ => []
  | _, [] => []
  | fuel + 1, l@(_ :: rest) =>
      match matchKwAt l with
      | some (w, v, r) => (w, v) :: finditerKwAux fuel r
      | Option.none => finditerKwAux fuel rest

def finditerKw (l : List Char) : List (List Char × List Char) :=
  finditerKwAux l.length l

/-- Python `str.strip()`: remove leading and trailing whitespace. -/
def pyStrip (s : String) : String :=
  ⟨((s.data.dropWhile isSpaceChar).reverse.dropWhile isSpaceChar).reverse⟩

/-- Python `dict` assignment `out[k] = v`: update in place if the key
exists, else append. -/
def updateDict (d : List (String × Val)) (k : String) (v : Val) :
    List (String × Val) :=
  match d with
  | [] => [(k, v)]
  | (k', v') :: rest =>
      if k' = k then (k, v) :: rest else (k', v') :: updateDict rest k v

/-- One iteration of the loop in `_parse_kw` (src/main.py:150-155): strip
the captured name and value, `ast.literal_eval` the value, store the pair
on success and silently skip it on failure. -/
def parseKwStep (litEval : String → Option Val)
    (out : List (String × Val)) (kv : List Char × List Char) :
    List (String × Val) :=
  match litEval (pyStrip ⟨kv.2⟩) with
  | some x => updateDict out (pyStrip ⟨kv.1⟩) x
  | Option.none => out

/-- Embeds `_parse_kw` (src/main.py:147-156): run the pattern over the
input and fold the match loop.  `litEval` models `ast.literal_eval`. -/
def parseKw (litEval : String → Option Val) (input : String) :
    List (String × Val) :=
  (finditerKw input.data).foldl (parseKwStep litEval) []

/-- Embeds `_parse_list` (src/main.py:158-162): try the whole (stripped) input as a
single literal; on failure return the empty argument list. -/
def parseList (litEval : String → Option Val) (input : String) : List Val :=
  match litEval (pyStrip input) with
  | some v => [v]
  | Option.none => []

/-- A fragment of `ast.literal_eval` (Python standard library), sufficient
for concrete witnesses: non-negative decimal integers and the constants
`None`, `True`, `False`; everything else fails. -/
def litEvalModel (s : String) : Option Val :=
  if s.data ≠ [] ∧ s.data.all Char.isDigit then
    some (.int (s.data.foldl (fun n c => 10 * n + ((c.toNat : Int) - 48)) 0))
  else if s = "None" then some .none
  else if s = "True" then some (.bool true)
  else if s = "False" then some (.bool false)
  else Option.none

/-! ### The Worker: `_run_single_case` (src/main.py:120-195) -/

/-- A Python callable as the worker observes it: its
`inspect.getfullargspec(...).args` and its call behaviour (which may raise). -/
structure PyFunc where
  argspecArgs : List String
  call : List Val → Except PyErr Val

/-- The global namespace produced by `exec(code, exec_globals)`: resolution
of the entry-point expression (`eval(entry_point, exec_globals)`,
src/main.py:167) and evaluation of an expected-value expression
(`eval(case["output"], exec_globals)`, src/main.py:180). -/
structure PyNs where
  resolve : String → Except PyErr PyFunc
  evalExpr : String → Except PyErr Val

/-- The interpreter facilities the worker relies on: `ast.literal_eval`
(modelled as an oracle, `Option.none` = the parse raises) and
`exec(code, exec_globals)` building a namespace (error = the load raises). -/
structure WorkerEnv where
  litEval : String → Option Val
  execCode : String → Except PyErr PyNs

/-- One input/output case (an element of `io_cases`). -/
structure IOCase where
  input : String
  output : String
deriving DecidableEq

/-- The observable side effects of the worker before and at user-code
execution, in program order. -/
inductive Event where
  | setrlimitAS (soft hard : Nat)
  | setrlimitCPU (soft hard : Nat)
  | execUserCode (code : String)
deriving DecidableEq

def Event.isSetrlimit : Event → Bool
  | .setrlimitAS _ _ => true
  | .setrlimitCPU _ _ => true
  | _ => false

def Event.isExec : Event → Bool
  | .execUserCode _ => true
  | _ => false

/-- The `expected` slot of a result dict: the parsed/evaluated expected
value on the success path, or the raw `case["output"]` text on the error
path (`case.get("output")`, src/main.py:193). -/
inductive ExpectedField where
  | val (v : Val)
  | text (s : String)

/-- The dict returned by `_run_single_case` (before the orchestrator stamps
`case`/`input` onto it). -/
structure CaseOutcome where
  passed : Bool
  got : Option Val
  expected : ExpectedField
  error : Option String

/-- Embeds `arg_spec.args[1:] if arg_spec.args and arg_spec.args[0] == "self" else
arg_spec.args` (src/main.py:169-173). -/
def getArgNames (f : PyFunc) : List String :=
  match f.argspecArgs with
  | a :: rest => if a = "self" then rest else f.argspecArgs
  | [] => []

/-- Embeds `[params[a] for a in arg_names]` (src/main.py:174): left-to-right dict
lookups; a missing name raises `KeyError`. -/
def bindKwArgs (params : List (String × Val)) : List String → Except PyErr (List Val)
  | [] => .ok []
  | n :: rest =>
      match params.lookup n with
      | some v => (bindKwArgs params rest).map (fun vs => v :: vs)
      | Option.none =>
          .error ⟨"KeyError", n, "Traceback (most recent call last): ..."⟩

/-- Embeds `args = [params[a] for a in arg_names] if params else list_params`
(src/main.py:164-174): keyword form when `_parse_kw` produced at least one
pair, else the positional-literal fallback. -/
def computeArgs (litEval : String → Option Val) (input : String)
    (argNames : List String) : Except PyErr (List Val) :=
  match parseKw litEval input with
  | [] => .ok (parseList litEval input)
  | p :: ps => bindKwArgs (p :: ps) argNames

/-- The body of the `try` in `_run_single_case` after the setrlimit calls
(src/main.py:138-187): load the code, resolve the entry point, bind
arguments, invoke, parse or evaluate the expected value, compare. -/
def runSingleCaseBody (env : WorkerEnv) (code entry_point : String)
    (c : IOCase) : Except PyErr (Bool × Val × Val) :=
  match env.execCode code with
  | .error e => .error e
  | .ok ns =>
    match ns.resolve entry_point with
    | .error e => .error e
    | .ok f =>
      match computeArgs env.litEval c.input (getArgNames f) with
      | .error e => .error e
      | .ok args =>
        match f.call args with
        | .error e => .error e
        | .ok got =>
          match (match env.litEval c.output with
                 | some v => Except.ok v
                 | Option.none => ns.evalExpr c.output) with
          | .error e => .error e
          | .ok expected => .ok (got == expected, got, expected)

/-- Embeds `_run_single_case` (src/main.py:120-195): the setrlimit calls with
`soft = hard = mem_limit_mb * 1024 * 1024` bytes and CPU
`(cpu_seconds, cpu_seconds + 1)` (src/main.py:132-136) precede the
execution of the submitted source; the surrounding `except Exception`
(src/main.py:189-195) folds every exception into an error result dict.
Returns the result dict and the event trace. -/
def run_single_case (env : WorkerEnv) (code entry_point : String)
    (c : IOCase) (mem_limit_mb cpu_seconds : Nat) :
    CaseOutcome × List Event :=
  let bytes := mem_limit_mb * 1024 * 1024
  let trace := [Event.setrlimitAS bytes bytes,
                Event.setrlimitCPU cpu_seconds (cpu_seconds + 1),
                Event.execUserCode code]
  let outcome :=
    match runSingleCaseBody env code entry_point c with
    | .ok (p, got, exp) =>
        { passed := p, got := some got, expected := .val exp,
          error := Option.none : CaseOutcome }
    | .error e =>
        { passed := false, got := Option.none, expected := .text c.output,
          error := some e.format }
  (outcome, trace)

/-! ### The Orchestrator: `evaluate_cases` (src/main.py:198-257) -/

/-- What `fut.result(timeout=timeout)` does for one submitted case
(src/main.py:231-250): deliver the worker's dict, raise `TimeoutError`, or
raise some other exception. -/
inductive FutOutcome where
  | result (r : CaseOutcome)
  | timeoutError
  | exc (e : PyErr)

/-- One element of `case_results`: the worker/orchestrator dict after the
loop stamps `result["case"] = idx` and `result["input"] = case.get("input")`
(src/main.py:252-253).  `caseIdx` embeds the dict key `"case"`. -/
structure CaseResult where
  caseIdx : Nat
  input : String
  passed : Bool
  got : Option Val
  expected : ExpectedField
  error : Option String

/-- The per-iteration body of the collection loop (src/main.py:231-254):
the delivered result, or the synthesized timeout dict
`{passed: False, got: None, expected: case.get("output"), error: "Timeout"}`
(src/main.py:236-241), or the belt-and-braces dict
`{..., error: f"TypeName: message"}` (src/main.py:245-250); each stamped
with the case index and original input. -/
def stampResult (idx : Nat) (c : IOCase) (o : FutOutcome) : CaseResult :=
  match o with
  | .result r =>
      { caseIdx := idx, input := c.input, passed := r.passed, got := r.got,
        expected := r.expected, error := r.error }
  | .timeoutError =>
      { caseIdx := idx, input := c.input, passed := false,
        got := Option.none, expected := .text c.output,
        error := some "Timeout" }
  | .exc e =>
      { caseIdx := idx, input := c.input, passed := false,
        got := Option.none, expected := .text c.output,
        error := some (e.name ++ ": " ++ e.msg) }

/-- Embeds `evaluate_cases` (src/main.py:198-257): one future per case is awaited
in submission order (`for idx, (case, fut) in enumerate(zip(io_cases,
futures))`); `fut` is the oracle giving each future's outcome (so worker
completion order is irrelevant); `all_passed` accumulates
`all_passed &= result["passed"]` from `True` (src/main.py:221,255). -/
def evaluate_cases (io_cases : List IOCase) (fut : Nat → FutOutcome) :
    Bool × List CaseResult :=
  let results := io_cases.enum.map (fun p => stampResult p.1 p.2 (fut p.1))
  (results.foldl (fun b r => b && r.passed) true, results)

/-! ### Paths and the session store (src/main.py:16, 62-91, 260-391)

Faithful models of the POSIX implementations of `os.path.normpath`,
`os.path.join`, `os.path.abspath`, `str.replace`, `str.split('/')`,
`str.startswith`, `str.strip`, used exactly where `src/main.py` uses them. -/

/-- Python `str.replace(pat, rep)` for a non-empty pattern: scan left to
right, replacing non-overlapping occurrences.  The `Nat` argument is fuel;
with fuel at least the length of the text (each step consumes at least one
character) the fuel-exhausted branch is unreachable, so the function agrees
with Python. -/
def pyReplaceAux (pat rep : List Char) : Nat → List Char → List Char
  | _, [] => []
  | 0, l => l
  | fuel + 1, c :: rest =>
      if pat ≠ [] ∧ pat.isPrefixOf (c :: rest) then
        rep ++ pyReplaceAux pat rep fuel ((c :: rest).drop pat.length)
      else
        c :: pyReplaceAux pat rep fuel rest

def pyReplace (s pat rep : String) : String :=
  ⟨pyReplaceAux pat.data rep.data s.data.length s.data⟩

/-- Python `str.split('/')`. -/
def splitSlash : List Char → List (List Char)
  | [] => [[]]
  | c :: rest =>
      match splitSlash rest with
      | [] => [[]]
      | cur :: others =>
          if c = '/' then [] :: cur :: others else (c :: cur) :: others

/-- Python `str.startswith(prefixStr)`. -/
def strStartsWith (s prefixStr : String) : Bool :=
  prefixStr.data.isPrefixOf s.data

/-- Embeds `posixpath.join(a, b)` for two components: `b` absolute replaces `a`;
otherwise insert a slash unless `a` is empty or already ends in one. -/
def osJoin (a b : String) : String :=
  if b.data.head? = some '/' then b
  else if a = "" ∨ a.data.getLast? = some '/' then a ++ b
  else a ++ "/" ++ b

/-- The leading-slash count kept by `posixpath.normpath`: 2 when the path
begins with exactly two slashes, else 1 when absolute, else 0. -/
def initialSlashes (p : String) : Nat :=
  let n := (p.data.takeWhile (fun c => c = '/')).length
  if n = 2 then 2 else if 1 ≤ n then 1 else 0

/-- The component loop of `posixpath.normpath`: drop empty and `.`
components; append a non-`..` component, or a `..` when the path is
relative and the stack is empty or already ends in `..`; otherwise pop. -/
def normpathComps (slashes : Nat) (comps : List (List Char)) :
    List (List Char) :=
  comps.foldl
    (fun acc comp =>
      if comp = [] ∨ comp = ['.'] then acc
      else if comp ≠ ['.', '.'] ∨ (slashes = 0 ∧ acc = []) ∨
          (acc.getLast? = some ['.', '.']) then acc ++ [comp]
      else if acc ≠ [] then acc.dropLast
      else acc)
    []

/-- Embeds `posixpath.normpath`: purely lexical normalization (collapses `//`,
drops `.`, cancels `name/..` pairs); it never consults the filesystem. -/
def normpath (p : String) : String :=
  if p = "" then "." else
  let ns := initialSlashes p
  let comps := normpathComps ns (splitSlash p.data)
  let res : List Char :=
    List.replicate ns '/' ++ List.intercalate ['/'] comps
  if res = [] then "." else ⟨res⟩

/-- Embeds `posixpath.abspath`: join onto the working directory and normalize —
still purely lexical; symlinks are NOT resolved. -/
def abspath (cwd p : String) : String :=
  normpath (osJoin cwd p)

/-- Embeds `TMP_ROOT` (src/main.py:16). -/
def TMP_ROOT : String := "/tmp/genie_repl"

/-- Embeds `safe_dirname` (src/main.py:62-65): replace every `/` with `_` and
every `..` with `__` in the session id, then join under `TMP_ROOT`. -/
def safe_dirname (session_id : String) : String :=
  osJoin TMP_ROOT (pyReplace (pyReplace session_id "/" "_") ".." "__")

/-- Embeds `safe_rel_path` (src/main.py:84-91): normalize, then reject paths that
start with `../` or `/`, then reject any remaining `..` component.
`.error m` embeds `raise ValueError(m)`. -/
def safe_rel_path (rel_path : String) : Except String String :=
  let r := normpath rel_path
  if strStartsWith r "../" || strStartsWith r "/" then
    .error "Invalid path"
  else if (splitSlash r.data).contains ['.', '.'] then
    .error "Invalid path: Parent traversal not allowed"
  else .ok r

/-- An exception inside an endpoint's `try` body, by handler-relevant
class: `ValueError`, `fastapi.HTTPException` (which IS an `Exception`
subclass), or any other exception. -/
inductive PyExc where
  | valueError (msg : String)
  | httpExc (code : Nat) (detail : String)
  | other (name msg : String)
deriving DecidableEq

/-- Python `str(e)`; for `starlette.HTTPException` this is
`f"{status_code}: {detail}"`. -/
def strOfExc : PyExc → String
  | .valueError m => m
  | .httpExc c d => toString c ++ ": " ++ d
  | .other _ m => m

/-- The shared handler ladder of `write_file`/`delete_file`/`rename_file`
(src/main.py:334-337, 355-358, 388-391):
`except ValueError` re-raises as HTTP 400 with the message, and the
catch-all `except Exception` re-raises EVERYTHING else — including an
`HTTPException` raised inside the `try` — as HTTP 500 with `str(e)`. -/
def handleWDR {α : Type} (body : Except PyExc α) : Except (Nat × String) α :=
  match body with
  | .ok a => .ok a
  | .error (.valueError m) => .error (400, m)
  | .error e => .error (500, strOfExc e)

/-- Embeds `write_file` (src/main.py:317-337).  The success value
`(absolute target, content)` names the single filesystem mutation the
endpoint performs; every `.error` path performs none (the checks precede
`os.makedirs` and `open`). -/
def write_file (cwd id rel_path content : String) :
    Except (Nat × String) (String × String) :=
  handleWDR (
    match safe_rel_path rel_path with
    | .error m => .error (PyExc.valueError m)
    | .ok rel =>
        let workdir := safe_dirname id
        let target := osJoin workdir rel
        let absW := abspath cwd workdir
        let absT := abspath cwd target
        if strStartsWith absT absW then .ok (absT, content)
        else .error (.httpExc 400 "Path traversal detected"))

/-- Embeds `delete_file` (src/main.py:340-358).  `isfile` is the filesystem
oracle `os.path.isfile`; the success value is the removed absolute path. -/
def delete_file (cwd : String) (isfile : String → Bool) (id rel_path : String) :
    Except (Nat × String) String :=
  handleWDR (
    match safe_rel_path rel_path with
    | .error m => .error (PyExc.valueError m)
    | .ok rel =>
        let workdir := safe_dirname id
        let target := osJoin workdir rel
        let absW := abspath cwd workdir
        let absT := abspath cwd target
        if ¬ strStartsWith absT absW then
          .error (.httpExc 400 "Path traversal detected")
        else if ¬ isfile absT then
          .error (.httpExc 404 "File does not exist")
        else .ok absT)

/-- Embeds `rename_file` (src/main.py:361-391).  The success value is the pair of
joined paths handed to `os.rename`. -/
def rename_file (cwd : String) (isfile : String → Bool)
    (id old_path new_path : String) :
    Except (Nat × String) (String × String) :=
  handleWDR (
    match safe_rel_path old_path with
    | .error m => .error (PyExc.valueError m)
    | .ok oldRel =>
      match safe_rel_path new_path with
      | .error m => .error (PyExc.valueError m)
      | .ok newRel =>
          let workdir := safe_dirname id
          let oldAbs := osJoin workdir oldRel
          let newAbs := osJoin workdir newRel
          let absW := abspath cwd workdir
          if ¬ strStartsWith (abspath cwd oldAbs) absW ||
              ¬ strStartsWith (abspath cwd newAbs) absW then
            .error (.httpExc 400 "Path traversal detected")
          else if ¬ isfile oldAbs then
            .error (.httpExc 404 "Old file does not exist")
          else .ok (oldAbs, newAbs))

/-! ### `run_command` (src/main.py:260-295) -/

/-- The outcome of `subprocess.run(cmd, ..., timeout=30)`: completion with
captured streams, `TimeoutExpired`, or some other exception.  The latter
two are caught by the endpoint's `except Exception`. -/
inductive SubprocOutcome where
  | completed (stdout stderr : String)
  | timeoutExpired (msg trace : String)
  | raised (e : PyErr)

/-- The JSON body of `/run`, with the HTTP status of the returned
`JSONResponse` (200 on the normal path, 500 on the caught-exception path —
returned, not raised). -/
structure RunResponse where
  stdout : String
  stderr : String
  statusCode : Nat
deriving DecidableEq

/-- Embeds `run_command` (src/main.py:260-295): a missing session directory makes
the endpoint RAISE `HTTPException(400, "Session does not exist")`
(src/main.py:268-269, before the `try`); otherwise every subprocess outcome
is turned into a returned response, exceptions becoming the synthetic
stderr `f"Exception running command: {e}\n{tb}"` with empty stdout. -/
def run_command (isdir : String → Bool) (sub : SubprocOutcome)
    (id _cmd : String) : Except (Nat × String) RunResponse :=
  let workdir := safe_dirname id
  if ¬ isdir workdir then .error (400, "Session does not exist")
  else
    match sub with
    | .completed out err => .ok ⟨out, err, 200⟩
    | .timeoutExpired m tb =>
        .ok ⟨"", "Exception running command: " ++ m ++ "\n" ++ tb, 500⟩
    | .raised e =>
        .ok ⟨"", "Exception running command: " ++ e.msg ++ "\n" ++ e.trace, 500⟩

/-! ### Canonicalization with symlinks (`os.path.realpath` model)

`src/main.py` never calls `realpath`; this model exists to STATE what
"resolves outside the session root after canonicalizing symlinks" means,
so the containment claim about `write_file` can be compared with the
purely lexical `abspath` check the code actually performs. -/

/-- One symlink-table lookup: `links` maps an absolute path to the absolute
target it links to (targets assumed canonical). -/
def resolveLink (links : List (String × String)) (p : String) : String :=
  (links.lookup p).getD p

/-- Model of `os.path.realpath`: resolve the (lexically normalized) path
component by component against the symlink table. -/
def realpath (links : List (String × String)) (p : String) : String :=
  let comps := (splitSlash (normpath p).data).filter (fun c => c ≠ [])
  comps.foldl
    (fun cur comp =>
      resolveLink links (if cur = "/" then "/" ++ ⟨comp⟩ else cur ++ "/" ++ ⟨comp⟩))
    "/"

/-! ### A concrete interpreter environment for the spec's worked example

The submitted code `def add(a, b): return a + b` with entry point `add`
(spec section 4.4 step 7 example).  `addNs`/`addFunc` model what the Python
interpreter produces for exactly this source text: a namespace in which
`add` resolves to a two-parameter function computing integer addition. -/

def addCode : String := "def add(a, b): return a + b"

def addFunc : PyFunc :=
  { argspecArgs := ["a", "b"],
    call := fun args =>
      match args with
      | [Val.int a, Val.int b] => .ok (.int (a + b))
      | _ => .error ⟨"TypeError", "unsupported operand types", "tb"⟩ }

def addNs : PyNs :=
  { resolve := fun name =>
      if name = "add" then .ok addFunc
      else .error ⟨"NameError", "name is not defined", "tb"⟩,
    evalExpr := fun s => .error ⟨"NameError", s, "tb"⟩ }

def addEnv : WorkerEnv :=
  { litEval := litEvalModel,
    execCode := fun c =>
      if c = addCode then .ok addNs
      else .error ⟨"SyntaxError", "invalid syntax", "tb"⟩ }

/-! ## Theorems -/

mutual

theorem Val.beq_iff : ∀ a b : Val, Val.beq a b = true ↔ a = b
  | .none, .none => by simp [Val.beq]
  | .none, .bool _ | .none, .int _ | .none, .str _ | .none, .list _ =>
      by simp [Val.beq]
  | .bool _, .none | .bool _, .int _ | .bool _, .str _ | .bool _, .list _ =>
      by simp [Val.beq]
  | .bool _, .bool _ => by simp [Val.beq]
  | .int _, .none | .int _, .bool _ | .int _, .str _ | .int _, .list _ =>
      by simp [Val.beq]
  | .int _, .int _ => by simp [Val.beq]
  | .str _, .none | .str _, .bool _ | .str _, .int _ | .str _, .list _ =>
      by simp [Val.beq]
  | .str _, .str _ => by simp [Val.beq]
  | .list _, .none | .list _, .bool _ | .list _, .int _ | .list _, .str _ =>
      by simp [Val.beq]
  | .list a, .list b => by
      simp only [Val.beq, Val.beqList_iff a b, Val.list.injEq]

theorem Val.beqList_iff : ∀ as bs : List Val, Val.beqList as bs = true ↔ as = bs
  | [], [] => by simp [Val.beqList]
  | [], _ :: _ => by simp [Val.beqList]
  | _ :: _, [] => by simp [Val.beqList]
  | a :: as, b :: bs => by
      simp only [Val.beqList, Bool.and_eq_true, Val.beq_iff a b,
        Val.beqList_iff as bs, List.cons.injEq]

end

theorem val_beq_self (a : Val) : (a == a) = true := (Val.beq_iff a a).mpr rfl

theorem val_beq_eq_false {a b : Val} (h : ¬ a = b) : (a == b) = false := by
  cases hb : Val.beq a b
  · exact hb
  · exact absurd ((Val.beq_iff a b).mp hb) h

theorem PyErr.format_ne_empty (e : PyErr) : e.format ≠ "" := by
  intro h
  have hlen : e.format.length = 0 := by rw [h]; rfl
  rw [PyErr.format] at hlen
  simp only [String.length_append] at hlen
  have h2 : (": ").length = 2 := rfl
  have h3 : ("\n").length = 1 := rfl
  omega

theorem stampResult_caseIdx (idx : Nat) (c : IOCase) (o : FutOutcome) :
    (stampResult idx c o).caseIdx = idx := by cases o <;> rfl

theorem stampResult_input (idx : Nat) (c : IOCase) (o : FutOutcome) :
    (stampResult idx c o).input = c.input := by cases o <;> rfl

theorem evaluate_cases_snd_length (io_cases : List IOCase)
    (fut : Nat → FutOutcome) :
    (evaluate_cases io_cases fut).2.length = io_cases.length := by
  show (io_cases.enum.map _).length = _
  rw [List.length_map, List.enum_length]

theorem evaluate_cases_snd_getElem (io_cases : List IOCase)
    (fut : Nat → FutOutcome) (i : Nat) (h : i < io_cases.length) :
    (evaluate_cases io_cases fut).2[i]? =
      some (stampResult i (io_cases.get ⟨i, h⟩) (fut i)) := by
  show (io_cases.enum.map _)[i]? = _
  rw [List.getElem?_map, List.getElem?_enum,
    List.getElem?_eq_getElem h]
  rfl

theorem foldl_and_passed (l : List CaseResult) (b : Bool) :
    l.foldl (fun acc r => acc && r.passed) b =
      (b && l.all (fun r => r.passed)) := by
  induction l generalizing b with
  | nil => simp
  | cons hd tl ih => simp [List.all_cons, ih, Bool.and_assoc]

/-- C1: for every list of io_cases and every assignment of per-future
outcomes (hence regardless of the order in which workers complete),
`evaluate_cases` returns exactly one case-result per input case, in the
same order as the input list, the result at position i carrying case index
i and the original input text of case i. -/
theorem evaluate_cases_one_ordered_result_per_case
    (io_cases : List IOCase) (fut : Nat → FutOutcome) :
    (evaluate_cases io_cases fut).2.length = io_cases.length ∧
    ∀ i (h : i < io_cases.length), ∃ r : CaseResult,
      (evaluate_cases io_cases fut).2[i]? = some r ∧
      r.caseIdx = i ∧ r.input = (io_cases.get ⟨i, h⟩).input := by
  refine ⟨evaluate_cases_snd_length io_cases fut, fun i h => ?_⟩
  exact ⟨stampResult i (io_cases.get ⟨i, h⟩) (fut i),
    evaluate_cases_snd_getElem io_cases fut i h,
    stampResult_caseIdx _ _ _, stampResult_input _ _ _⟩

theorem evaluate_cases_one_ordered_result_per_case_witness :
    ∃ r : CaseResult,
      (evaluate_cases [⟨"i0", "o0"⟩, ⟨"i1", "o1"⟩]
        (fun _ => FutOutcome.timeoutError)).2[1]? = some r ∧
      r.caseIdx = 1 ∧ r.input = "i1" := by
  obtain ⟨r, hr, hc, hi⟩ :=
    (evaluate_cases_one_ordered_result_per_case
      [⟨"i0", "o0"⟩, ⟨"i1", "o1"⟩] (fun _ => FutOutcome.timeoutError)).2
      1 (by decide)
  exact ⟨r, hr, hc, hi⟩

/-- C2: `all_passed` equals the conjunction of the `passed` fields over the
returned case results; on an empty batch `evaluate_cases` returns
`(True, [])`. -/
theorem evaluate_cases_all_passed_conjunction
    (io_cases : List IOCase) (fut : Nat → FutOutcome) :
    (evaluate_cases io_cases fut).1 =
      (evaluate_cases io_cases fut).2.all (fun r => r.passed) ∧
    evaluate_cases ([] : List IOCase) fut = (true, []) := by
  constructor
  · show ((evaluate_cases io_cases fut).2.foldl
        (fun b r => b && r.passed) true) = _
    rw [foldl_and_passed]
    simp
  · rfl

/-- C3: per-case failures are contained: the batch result is always full
and ordered; a timed-out future yields exactly the synthesized result
with passed false, got none, expected the case's output text and error
"Timeout"; an exception anywhere inside the worker body yields passed
false together with a non-null (indeed non-empty) error string, folded
into that case's result. -/
theorem per_case_failures_contained
    (io_cases : List IOCase) (fut : Nat → FutOutcome)
    (env : WorkerEnv) (code entry_point : String) (c : IOCase)
    (mem cpu : Nat) :
    (evaluate_cases io_cases fut).2.length = io_cases.length ∧
    (∀ i (h : i < io_cases.length), fut i = .timeoutError →
      (evaluate_cases io_cases fut).2[i]? = some
        { caseIdx := i, input := (io_cases.get ⟨i, h⟩).input,
          passed := false, got := Option.none,
          expected := .text (io_cases.get ⟨i, h⟩).output,
          error := some "Timeout" }) ∧
    (∀ e, runSingleCaseBody env code entry_point c = .error e →
      (run_single_case env code entry_point c mem cpu).1 =
        { passed := false, got := Option.none, expected := .text c.output,
          error := some e.format } ∧ e.format ≠ "") := by
  refine ⟨evaluate_cases_snd_length _ _, fun i h ht => ?_, fun e he => ?_⟩
  · rw [evaluate_cases_snd_getElem io_cases fut i h, ht]
    rfl
  · exact ⟨by simp [run_single_case, he], PyErr.format_ne_empty e⟩

theorem per_case_failures_contained_witness :
    (evaluate_cases [⟨"in0", "out0"⟩]
      (fun _ => FutOutcome.timeoutError)).2[0]? = some
        { caseIdx := 0, input := "in0", passed := false, got := Option.none,
          expected := .text "out0", error := some "Timeout" } ∧
    (run_single_case addEnv "bad code" "add" ⟨"1", "1"⟩ 2048 4).1 =
      { passed := false, got := Option.none, expected := .text "1",
        error := some (PyErr.format ⟨"SyntaxError", "invalid syntax", "tb"⟩) } := by
  have h := per_case_failures_contained [⟨"in0", "out0"⟩]
    (fun _ => FutOutcome.timeoutError) addEnv "bad code" "add" ⟨"1", "1"⟩ 2048 4
  exact ⟨h.2.1 0 (by decide) rfl,
    (h.2.2 ⟨"SyntaxError", "invalid syntax", "tb"⟩ rfl).1⟩

/-- C7: in the worker, both setrlimit calls strictly precede the execution
of the submitted source text, the address-space limit has
soft = hard = mem_limit_mb * 1024 * 1024 bytes and the CPU limit has
hard = soft + 1 seconds. -/
theorem resource_limits_before_user_code
    (env : WorkerEnv) (code entry_point : String) (c : IOCase)
    (mem_limit_mb cpu_seconds : Nat) :
    (run_single_case env code entry_point c mem_limit_mb cpu_seconds).2 =
      [Event.setrlimitAS (mem_limit_mb * 1024 * 1024)
        (mem_limit_mb * 1024 * 1024),
       Event.setrlimitCPU cpu_seconds (cpu_seconds + 1),
       Event.execUserCode code] ∧
    ∀ (i j : Nat) (ea eb : Event),
      (run_single_case env code entry_point c mem_limit_mb cpu_seconds).2[i]?
        = some ea →
      ea.isSetrlimit = true →
      (run_single_case env code entry_point c mem_limit_mb cpu_seconds).2[j]?
        = some eb →
      eb.isExec = true → i < j := by
  refine ⟨rfl, fun i j ea eb h1 h2 h3 h4 => ?_⟩
  have htr : (run_single_case env code entry_point c mem_limit_mb
      cpu_seconds).2 =
      [Event.setrlimitAS (mem_limit_mb * 1024 * 1024)
        (mem_limit_mb * 1024 * 1024),
       Event.setrlimitCPU cpu_seconds (cpu_seconds + 1),
       Event.execUserCode code] := rfl
  rw [htr] at h1 h3
  have hlen3 : ([Event.setrlimitAS (mem_limit_mb * 1024 * 1024)
        (mem_limit_mb * 1024 * 1024),
       Event.setrlimitCPU cpu_seconds (cpu_seconds + 1),
       Event.execUserCode code]).length = 3 := rfl
  have hi : i < 3 := by
    by_contra hni
    rw [List.getElem?_eq_none_iff.mpr (le_of_le_of_eq
      (le_of_eq hlen3.symm) (le_antisymm (le_refl 3) (le_refl 3)) |>.trans
      (Nat.le_of_not_lt hni))] at h1
    cases h1
  have hj : j < 3 := by
    by_contra hnj
    rw [List.getElem?_eq_none_iff.mpr (le_of_le_of_eq
      (le_of_eq hlen3.symm) (le_antisymm (le_refl 3) (le_refl 3)) |>.trans
      (Nat.le_of_not_lt hnj))] at h3
    cases h3
  interval_cases i <;> interval_cases j <;>
      injection h1 with h1 <;> injection h3 with h3 <;>
      first
        | omega
        | (subst h1; subst h3;
           simp [Event.isSetrlimit, Event.isExec] at h2 h4)

theorem resource_limits_before_user_code_witness :
    (run_single_case addEnv addCode "add" ⟨"1", "1"⟩ 2048 4).2 =
      [Event.setrlimitAS (2048 * 1024 * 1024) (2048 * 1024 * 1024),
       Event.setrlimitCPU 4 (4 + 1), Event.execUserCode addCode] ∧
    (0 : Nat) < 2 := by
  have h := resource_limits_before_user_code addEnv addCode "add"
    ⟨"1", "1"⟩ 2048 4
  refine ⟨h.1, ?_⟩
  exact h.2 0 2 (Event.setrlimitAS (2048 * 1024 * 1024) (2048 * 1024 * 1024))
    (Event.execUserCode addCode) (by rw [h.1]; rfl) rfl (by rw [h.1]; rfl) rfl

theorem mem_updateDict {d : List (String × Val)} {k : String} {v : Val}
    {kv : String × Val} (h : kv ∈ updateDict d k v) :
    kv = (k, v) ∨ kv ∈ d := by
  induction d with
  | nil => simpa [updateDict] using h
  | cons hd tl ih =>
    obtain ⟨k', v'⟩ := hd
    rw [updateDict] at h
    by_cases hk : k' = k
    · rw [if_pos hk] at h
      rcases List.mem_cons.mp h with h | h
      · exact Or.inl h
      · exact Or.inr (List.mem_cons.mpr (Or.inr h))
    · rw [if_neg hk] at h
      rcases List.mem_cons.mp h with h | h
      · exact Or.inr (List.mem_cons.mpr (Or.inl h))
      · rcases ih h with h | h
        · exact Or.inl h
        · exact Or.inr (List.mem_cons.mpr (Or.inr h))

theorem parseKw_foldl_values (litEval : String → Option Val)
    (l : List (List Char × List Char)) :
    ∀ acc : List (String × Val),
      (∀ kv ∈ acc, ∃ s, litEval s = some kv.2) →
      ∀ kv ∈ l.foldl (parseKwStep litEval) acc,
        ∃ s, litEval s = some kv.2 := by
  induction l with
  | nil => intro acc hacc kv h; exact hacc kv h
  | cons hd tl ih =>
    intro acc hacc kv h
    refine ih (parseKwStep litEval acc hd) ?_ kv h
    intro kv' hkv'
    rw [parseKwStep] at hkv'
    cases hl : litEval (pyStrip ⟨hd.2⟩) with
    | none => rw [hl] at hkv'; exact hacc kv' hkv'
    | some x =>
      rw [hl] at hkv'
      rcases mem_updateDict hkv' with h' | h'
      · exact ⟨pyStrip ⟨hd.2⟩, by rw [hl, h']⟩
      · exact hacc kv' h'

theorem runSingleCaseBody_ok_spec (env : WorkerEnv)
    (code entry_point : String) (c : IOCase) {b : Bool} {g x : Val}
    (h : runSingleCaseBody env code entry_point c = .ok (b, g, x)) :
    b = (g == x) ∧
    ∃ ns f args, env.execCode code = .ok ns ∧
      ns.resolve entry_point = .ok f ∧
      computeArgs env.litEval c.input (getArgNames f) = .ok args ∧
      f.call args = .ok g ∧
      (env.litEval c.output = some x ∨
        (env.litEval c.output = Option.none ∧
          ns.evalExpr c.output = .ok x)) := by
  unfold runSingleCaseBody at h
  cases h1 : env.execCode code with
  | error e => rw [h1] at h; exact Except.noConfusion h
  | ok ns =>
  rw [h1] at h; dsimp only at h
  cases h2 : ns.resolve entry_point with
  | error e => rw [h2] at h; exact Except.noConfusion h
  | ok f =>
  rw [h2] at h; dsimp only at h
  cases h3 : computeArgs env.litEval c.input (getArgNames f) with
  | error e => rw [h3] at h; exact Except.noConfusion h
  | ok args =>
  rw [h3] at h; dsimp only at h
  cases h4 : f.call args with
  | error e => rw [h4] at h; exact Except.noConfusion h
  | ok got =>
  rw [h4] at h; dsimp only at h
  cases h5 : env.litEval c.output with
  | some v =>
    rw [h5] at h; dsimp only at h
    injection h with h
    obtain ⟨hb, hg, hx⟩ : b = (got == v) ∧ g = got ∧ x = v := by
      have := h.symm
      simp only [Prod.mk.injEq] at this
      exact this
    subst hg; subst hx
    exact ⟨hb, ns, f, args, rfl, h2, h3, h4, Or.inl rfl⟩
  | none =>
    rw [h5] at h; dsimp only at h
    cases h6 : ns.evalExpr c.output with
    | error e => rw [h6] at h; exact Except.noConfusion h
    | ok w =>
      rw [h6] at h; dsimp only at h
      injection h with h
      obtain ⟨hb, hg, hx⟩ : b = (got == w) ∧ g = got ∧ x = w := by
        have := h.symm
        simp only [Prod.mk.injEq] at this
        exact this
      subst hg; subst hx
      exact ⟨hb, ns, f, args, rfl, h2, h3, h4, Or.inr ⟨rfl, h6⟩⟩

/-- C8: argument binding tries the keyword form first: every pair stored by
the keyword parser carries a value produced by the literal parser (never by
evaluation of code), and when at least one pair was parsed the arguments
are positioned by the callable's declared parameter names with a leading
self receiver excluded; when no keyword pair was parsed, the whole input is
parsed as a single literal and passed as the sole positional argument; when
that also fails the argument list is empty and the entry point is invoked
with zero arguments. -/
theorem argument_binding_forms
    (litEval : String → Option Val) (input : String) (f : PyFunc) :
    (∀ kv ∈ parseKw litEval input, ∃ s, litEval s = some kv.2) ∧
    (∀ p ps, parseKw litEval input = p :: ps →
      computeArgs litEval input (getArgNames f) =
        bindKwArgs (p :: ps) (getArgNames f)) ∧
    (∀ rest, f.argspecArgs = "self" :: rest → getArgNames f = rest) ∧
    (∀ a rest, f.argspecArgs = a :: rest → a ≠ "self" →
      getArgNames f = a :: rest) ∧
    (∀ v, litEval (pyStrip input) = some v →
      parseList litEval input = [v]) ∧
    (parseKw litEval input = [] → ∀ v, litEval (pyStrip input) = some v →
      computeArgs litEval input (getArgNames f) = .ok [v]) ∧
    (parseKw litEval input = [] → litEval (pyStrip input) = Option.none →
      computeArgs litEval input (getArgNames f) = .ok []) ∧
    (∀ (env : WorkerEnv) code ep (c : IOCase) ns v,
      env.execCode code = .ok ns → ns.resolve ep = .ok f →
      parseKw env.litEval c.input = [] →
      env.litEval (pyStrip c.input) = Option.none →
      env.litEval c.output = some v →
      runSingleCaseBody env code ep c =
        match f.call [] with
        | .error e => .error e
        | .ok got => .ok (got == v, got, v)) := by
  refine ⟨?_, ?_, ?_, ?_, ?_, ?_, ?_, ?_⟩
  · exact fun kv h => parseKw_foldl_values litEval (finditerKw input.data) []
      (by intro kv' h'; cases h') kv h
  · intro p ps hps
    unfold computeArgs
    rw [hps]
  · intro rest hrest
    unfold getArgNames
    rw [hrest]
    simp
  · intro a rest hrest ha
    unfold getArgNames
    rw [hrest]
    simp [ha]
  · intro v hv
    unfold parseList
    rw [hv]
  · intro hkw v hv
    unfold computeArgs
    rw [hkw]
    unfold parseList
    rw [hv]
  · intro hkw hv
    unfold computeArgs
    rw [hkw]
    unfold parseList
    rw [hv]
  · intro env code ep c ns v hexec hres hkw hlit hout
    have hargs : computeArgs env.litEval c.input (getArgNames f) = .ok [] := by
      unfold computeArgs
      rw [hkw]
      unfold parseList
      rw [hlit]
    unfold runSingleCaseBody
    rw [hexec]; dsimp only
    rw [hres]; dsimp only
    rw [hargs]; dsimp only
    cases hc : f.call [] with
    | error e => dsimp only
    | ok got => dsimp only; rw [hout]

theorem argument_binding_forms_witness :
    computeArgs litEvalModel "a=2, b=3" (getArgNames addFunc) =
      bindKwArgs [("a", Val.int 2), ("b", Val.int 3)] ["a", "b"] ∧
    computeArgs litEvalModel "7" (getArgNames addFunc) = .ok [Val.int 7] ∧
    computeArgs litEvalModel "zzz" (getArgNames addFunc) = .ok [] ∧
    runSingleCaseBody addEnv addCode "add" ⟨"zzz", "5"⟩ =
      match addFunc.call [] with
      | .error e => .error e
      | .ok got => .ok (got == Val.int 5, got, Val.int 5) := by
  refine ⟨?_, ?_, ?_, ?_⟩
  · exact (argument_binding_forms litEvalModel "a=2, b=3" addFunc).2.1
      ("a", Val.int 2) [("b", Val.int 3)] rfl
  · exact (argument_binding_forms litEvalModel "7" addFunc).2.2.2.2.2.1
      rfl (Val.int 7) rfl
  · exact (argument_binding_forms litEvalModel "zzz" addFunc).2.2.2.2.2.2.1
      rfl rfl
  · exact (argument_binding_forms litEvalModel "zzz" addFunc).2.2.2.2.2.2.2
      addEnv addCode "add" ⟨"zzz", "5"⟩ addNs (Val.int 5) rfl rfl rfl rfl rfl

/-- C9: the worker parses the case's output field as a literal, falling
back to evaluating it as an expression in the loaded namespace when the
literal parse fails; passed is the structural deep equality of the
invocation result and the expected value (the Boolean equality used decides
propositional equality); on the worked add example with input "a=2, b=3",
output "5" yields passed with got = expected = 5 and output "6" yields not
passed with got 5 and expected 6. -/
theorem expected_value_and_structural_equality :
    (∀ a b : Val, (a == b) = true ↔ a = b) ∧
    (∀ (env : WorkerEnv) code ep (c : IOCase) (b : Bool) (g x : Val),
      runSingleCaseBody env code ep c = .ok (b, g, x) → b = (g == x)) ∧
    (∀ (env : WorkerEnv) code ep (c : IOCase) (v : Val) (b : Bool) (g x : Val),
      env.litEval c.output = some v →
      runSingleCaseBody env code ep c = .ok (b, g, x) → x = v) ∧
    (∀ (env : WorkerEnv) code ep (c : IOCase) (ns : PyNs) (w : Val)
        (b : Bool) (g x : Val),
      env.litEval c.output = Option.none → env.execCode code = .ok ns →
      ns.evalExpr c.output = .ok w →
      runSingleCaseBody env code ep c = .ok (b, g, x) → x = w) ∧
    (run_single_case addEnv addCode "add" ⟨"a=2, b=3", "5"⟩ 2048 4).1 =
      { passed := true, got := some (Val.int 5),
        expected := .val (Val.int 5), error := Option.none } ∧
    (run_single_case addEnv addCode "add" ⟨"a=2, b=3", "6"⟩ 2048 4).1 =
      { passed := false, got := some (Val.int 5),
        expected := .val (Val.int 6), error := Option.none } := by
  refine ⟨Val.beq_iff, ?_, ?_, ?_, ?_, ?_⟩
  · exact fun env code ep c b g x h => (runSingleCaseBody_ok_spec env code ep c h).1
  · intro env code ep c v b g x hv h
    obtain ⟨-, ns, f, args, -, -, -, -, hexp⟩ :=
      runSingleCaseBody_ok_spec env code ep c h
    rcases hexp with hx | ⟨hnone, -⟩
    · rw [hv] at hx
      injection hx with hx
      exact hx.symm
    · rw [hv] at hnone
      cases hnone
  · intro env code ep c ns w b g x hnone hns hw h
    obtain ⟨-, ns', f, args, hns', -, -, -, hexp⟩ :=
      runSingleCaseBody_ok_spec env code ep c h
    have hnseq : ns' = ns := by
      rw [hns] at hns'
      injection hns' with hns'
      exact hns'.symm
    subst hnseq
    rcases hexp with hx | ⟨-, hx⟩
    · rw [hnone] at hx
      cases hx
    · rw [hw] at hx
      injection hx with hx
      exact hx.symm
  · have hbody : runSingleCaseBody addEnv addCode "add" ⟨"a=2, b=3", "5"⟩ =
        Except.ok ((Val.int 5 == Val.int 5), Val.int 5, Val.int 5) := rfl
    have hres : (run_single_case addEnv addCode "add"
        ⟨"a=2, b=3", "5"⟩ 2048 4).1 =
        { passed := (Val.int 5 == Val.int 5), got := some (Val.int 5),
          expected := .val (Val.int 5), error := Option.none } := rfl
    rw [hres, val_beq_self]
  · have hres : (run_single_case addEnv addCode "add"
        ⟨"a=2, b=3", "6"⟩ 2048 4).1 =
        { passed := (Val.int 5 == Val.int 6), got := some (Val.int 5),
          expected := .val (Val.int 6), error := Option.none } := rfl
    rw [hres, val_beq_eq_false (by simp)]

theorem expected_value_and_structural_equality_witness :
    (true : Bool) = (Val.int 5 == Val.int 5) ∧ Val.int 5 = Val.int 5 := by
  have h := expected_value_and_structural_equality
  have hbody : runSingleCaseBody addEnv addCode "add" ⟨"a=2, b=3", "5"⟩ =
      Except.ok ((Val.int 5 == Val.int 5), Val.int 5, Val.int 5) := rfl
  rw [val_beq_self] at hbody
  constructor
  · exact h.2.1 addEnv addCode "add" ⟨"a=2, b=3", "5"⟩ true
      (Val.int 5) (Val.int 5) hbody
  · exact h.2.2.1 addEnv addCode "add" ⟨"a=2, b=3", "5"⟩ (Val.int 5) true
      (Val.int 5) (Val.int 5) rfl hbody

theorem safe_rel_path_ok_eq {p rel : String}
    (h : safe_rel_path p = .ok rel) : rel = normpath p := by
  unfold safe_rel_path at h
  dsimp only at h
  split_ifs at h
  injection h with h
  exact h.symm

/-- C4 (amended): a write whose normalized relative path is absolute or
begins with a parent-directory segment fails with the path-invalid error
(HTTP 400, via the ValueError handler) and performs no filesystem mutation
— in particular the relative path "../../etc/passwd" is rejected; the
outside-the-root check on the remaining paths is a prefix comparison on
LEXICALLY normalized absolute paths: every successful write's target merely
satisfies the `abspath` prefix check against the session root, symlinks not
being resolved anywhere. -/
theorem write_file_lexical_path_validation
    (cwd id rel_path content : String) :
    (∀ m, safe_rel_path rel_path = .error m →
      write_file cwd id rel_path content = .error (400, m)) ∧
    (∀ t c', write_file cwd id rel_path content = .ok (t, c') →
      strStartsWith t (abspath cwd (safe_dirname id)) = true ∧
      t = abspath cwd (osJoin (safe_dirname id) (normpath rel_path)) ∧
      c' = content) ∧
    write_file cwd id "../../etc/passwd" content =
      .error (400, "Invalid path") := by
  refine ⟨?_, ?_, rfl⟩
  · intro m hm
    unfold write_file
    rw [hm]
    rfl
  · intro t c' h
    unfold write_file at h
    cases hrel : safe_rel_path rel_path with
    | error m => rw [hrel] at h; exact Except.noConfusion h
    | ok rel =>
      rw [hrel] at h; dsimp only at h
      by_cases hpre : strStartsWith
          (abspath cwd (osJoin (safe_dirname id) rel))
          (abspath cwd (safe_dirname id)) = true
      · rw [if_pos hpre] at h
        dsimp only [handleWDR] at h
        injection h with h
        obtain ⟨ht, hc⟩ : abspath cwd (osJoin (safe_dirname id) rel) = t ∧
            content = c' := by
          simpa [Prod.mk.injEq] using h
        subst ht; subst hc
        rw [safe_rel_path_ok_eq hrel] at hpre ⊢
        exact ⟨hpre, rfl, rfl⟩
      · rw [if_neg hpre] at h
        exact Except.noConfusion h

theorem write_file_lexical_path_validation_witness :
    write_file "/" "w1" "../../etc/passwd" "data" =
      .error (400, "Invalid path") ∧
    write_file "/" "w1" "/etc/passwd" "data" = .error (400, "Invalid path") ∧
    strStartsWith "/tmp/genie_repl/w1/sub/f.txt"
      (abspath "/" (safe_dirname "w1")) = true := by
  refine ⟨(write_file_lexical_path_validation "/" "w1" "x" "data").2.2, ?_, ?_⟩
  · exact (write_file_lexical_path_validation "/" "w1" "/etc/passwd"
      "data").1 "Invalid path" rfl
  · exact ((write_file_lexical_path_validation "/" "w1" "sub/f.txt"
      "data").2.1 "/tmp/genie_repl/w1/sub/f.txt" "data" rfl).1

/-- C4 counterexample: the claim as stated is false: with a symlink
`link -> /etc` inside the session directory, the relative path
"link/passwd" joins to a path whose canonicalized (symlink-resolving)
resolution "/etc/passwd" lies outside the session root, yet `write_file`
accepts it and performs the write — the code's check (`os.path.abspath`
plus `str.startswith`) is purely lexical and never resolves symlinks. -/
theorem write_file_symlink_escape_counterexample :
    write_file "/" "sess" "link/passwd" "content" =
      .ok ("/tmp/genie_repl/sess/link/passwd", "content") ∧
    realpath [("/tmp/genie_repl/sess/link", "/etc")]
      "/tmp/genie_repl/sess/link/passwd" = "/etc/passwd" ∧
    realpath [("/tmp/genie_repl/sess/link", "/etc")] (safe_dirname "sess") =
      "/tmp/genie_repl/sess" ∧
    strStartsWith "/etc/passwd" "/tmp/genie_repl/sess" = false :=
  ⟨rfl, rfl, rfl, rfl⟩

/-- C5 (amended): when the session directory exists, a run-command call
never fails: it returns a stdout/stderr response for every subprocess
outcome, with a synthetic stderr message alongside empty stdout on timeout
or any other internal exception; but when the session directory does not
exist the endpoint raises HTTP 400 instead of returning stderr text. -/
theorem run_command_streams_when_session_exists
    (isdir : String → Bool) (sub : SubprocOutcome) (id cmd : String)
    (h : isdir (safe_dirname id) = true) :
    (∃ r : RunResponse, run_command isdir sub id cmd = .ok r) ∧
    (∀ m tb, sub = .timeoutExpired m tb →
      run_command isdir sub id cmd =
        .ok ⟨"", "Exception running command: " ++ m ++ "\n" ++ tb, 500⟩) ∧
    (∀ e, sub = .raised e →
      run_command isdir sub id cmd =
        .ok ⟨"", "Exception running command: " ++ e.msg ++ "\n" ++ e.trace,
          500⟩) ∧
    (∀ out err, sub = .completed out err →
      run_command isdir sub id cmd = .ok ⟨out, err, 200⟩) := by
  have hif : ¬ ¬ isdir (safe_dirname id) = true := by rw [h]; simp
  have hrun : run_command isdir sub id cmd =
      match sub with
      | .completed out err => .ok ⟨out, err, 200⟩
      | .timeoutExpired m tb =>
          .ok ⟨"", "Exception running command: " ++ m ++ "\n" ++ tb, 500⟩
      | .raised e =>
          .ok ⟨"", "Exception running command: " ++ e.msg ++ "\n" ++ e.trace,
            500⟩ := by
    unfold run_command
    rw [if_neg hif]
  refine ⟨?_, ?_, ?_, ?_⟩
  · rw [hrun]
    cases sub with
    | completed out err => exact ⟨_, rfl⟩
    | timeoutExpired m tb => exact ⟨_, rfl⟩
    | raised e => exact ⟨_, rfl⟩
  · intro m tb hsub
    rw [hrun, hsub]
  · intro e hsub
    rw [hrun, hsub]
  · intro out err hsub
    rw [hrun, hsub]

theorem run_command_streams_witness :
    run_command (fun _ => true)
      (SubprocOutcome.timeoutExpired "timed out after 30 seconds" "tb")
      "sess" "sleep 100" =
      .ok ⟨"", "Exception running command: " ++ "timed out after 30 seconds"
        ++ "\n" ++ "tb", 500⟩ :=
  (run_command_streams_when_session_exists (fun _ => true)
    (SubprocOutcome.timeoutExpired "timed out after 30 seconds" "tb")
    "sess" "sleep 100" rfl).2.1 "timed out after 30 seconds" "tb" rfl

/-- C5 counterexample: when the session directory is missing the call DOES
fail (HTTP 400 raised before the try block), returning no stdout/stderr
text at all, contradicting "never fails the call itself" and "a missing
session directory is returned as stderr text rather than raised". -/
theorem run_command_missing_session_raises :
    run_command (fun _ => false) (SubprocOutcome.completed "out" "err")
      "sess" "ls" = .error (400, "Session does not exist") := rfl

/-- C6: evaluating the code at the failing input shows the claim is right
and the code is wrong: deleting an absent file (and renaming an absent old
path) yields HTTP 500 — the io-failure kind — not the NotFound kind,
because the `HTTPException(404, ...)` raised inside the `try` block is
caught by the endpoint's own catch-all `except Exception` handler and
re-raised as `HTTPException(500, str(e))`; the intended 404 survives only
inside the detail string. -/
theorem delete_rename_absent_file_gives_500 :
    delete_file "/" (fun _ => false) "sess" "a.txt" =
      .error (500, "404: File does not exist") ∧
    rename_file "/" (fun _ => false) "sess" "a.txt" "b.txt" =
      .error (500, "404: Old file does not exist") := ⟨rfl, rfl⟩

theorem pyReplaceAux_slash_pat_no_slash :
    ∀ (fuel : Nat) (l : List Char), l.length ≤ fuel →
      ∀ c ∈ pyReplaceAux ['/'] ['_'] fuel l, c ≠ '/' := by
  intro fuel
  induction fuel with
  | zero =>
    intro l hl c hc
    rw [List.length_eq_zero.mp (Nat.le_zero.mp hl)] at hc
    cases hc
  | succ n ih =>
    intro l hl c hc
    cases l with
    | nil => cases hc
    | cons a rest =>
      simp only [pyReplaceAux] at hc
      by_cases hp : (['/'] : List Char) ≠ [] ∧
          List.isPrefixOf ['/'] (a :: rest)
      · rw [if_pos hp] at hc
        rcases List.mem_append.mp hc with h | h
        · rw [List.mem_singleton.mp h]
          decide
        · refine ih ((a :: rest).drop 1) ?_ c h
          simp only [List.length_drop, List.length_cons]
          simp only [List.length_cons] at hl
          omega
      · rw [if_neg hp] at hc
        rcases List.mem_cons.mp hc with h | h
        · subst h
          intro hca
          subst hca
          exact hp ⟨by simp, by simp [List.isPrefixOf]⟩
        · refine ih rest ?_ c h
          simp only [List.length_cons] at hl
          omega

theorem pyReplaceAux_preserves_no_slash :
    ∀ (fuel : Nat) (pat rep l : List Char),
      (∀ c ∈ rep, c ≠ '/') → (∀ c ∈ l, c ≠ '/') →
      ∀ c ∈ pyReplaceAux pat rep fuel l, c ≠ '/' := by
  intro fuel
  induction fuel with
  | zero =>
    intro pat rep l _ hl c hc
    cases l with
    | nil => cases hc
    | cons a rest =>
      simp only [pyReplaceAux] at hc
      exact hl c hc
  | succ n ih =>
    intro pat rep l hrep hl c hc
    cases l with
    | nil => cases hc
    | cons a rest =>
      simp only [pyReplaceAux] at hc
      by_cases hp : pat ≠ [] ∧ List.isPrefixOf pat (a :: rest)
      · rw [if_pos hp] at hc
        rcases List.mem_append.mp hc with h | h
        · exact hrep c h
        · exact ih pat rep _ hrep
            (fun c' hc' => hl c' (List.mem_of_mem_drop hc')) c h
      · rw [if_neg hp] at hc
        rcases List.mem_cons.mp hc with h | h
        · subst h
          exact hl c (List.mem_cons_self c rest)
        · exact ih pat rep rest hrep
            (fun c' hc' => hl c' (List.mem_cons_of_mem a hc')) c h

/-- C10: for every session id, `safe_dirname` returns `TMP_ROOT` joined to
a sanitized component containing no path separator (every `/` became `_`
and every `..` became `__` before joining), so the session directory is
directly under `/tmp/genie_repl` and no session id can address a directory
outside that root. -/
theorem safe_dirname_directly_under_root (session_id : String) :
    ∃ r : String, safe_dirname session_id = "/tmp/genie_repl/" ++ r ∧
      ∀ ch ∈ r.data, ch ≠ '/' := by
  refine ⟨pyReplace (pyReplace session_id "/" "_") ".." "__", ?_, ?_⟩
  · have hin : ∀ c ∈ (pyReplace session_id "/" "_").data, c ≠ '/' :=
      fun c hc => pyReplaceAux_slash_pat_no_slash _ _ (le_refl _) c hc
    have hout : ∀ c ∈ (pyReplace (pyReplace session_id "/" "_")
        ".." "__").data, c ≠ '/' :=
      fun c hc => pyReplaceAux_preserves_no_slash _ _ _ _ (by decide)
        hin c hc
    have h1 : ¬ (pyReplace (pyReplace session_id "/" "_")
        ".." "__").data.head? = some '/' := by
      cases hd : (pyReplace (pyReplace session_id "/" "_")
          ".." "__").data with
      | nil => simp
      | cons a rest =>
        simp only [List.head?]
        intro hcontra
        injection hcontra with hcontra
        exact hout a (by rw [hd]; exact List.mem_cons_self a rest) hcontra
    show osJoin TMP_ROOT _ = _
    unfold osJoin
    rw [if_neg h1, if_neg (by decide)]
    rfl
  · exact fun c hc => pyReplaceAux_preserves_no_slash _ _ _ _ (by decide)
      (fun c' hc' => pyReplaceAux_slash_pat_no_slash _ _ (le_refl _) c' hc')
      c hc

theorem safe_dirname_directly_under_root_witness :
    ∃ r : String, safe_dirname "a/../b" = "/tmp/genie_repl/" ++ r ∧
      ∀ ch ∈ r.data, ch ≠ '/' :=
  safe_dirname_directly_under_root "a/../b"

end BasicCodeExec
